import Mathlib

/-!
Verification of the HyperCast time-series learning pipeline
(feature engineering, scaler, training loop, inference, serving window).

Python floats are modelled as exact rationals, numpy 2-D arrays as a
column count together with a list of rows, and raised Python exceptions
as `Except PyError`.
-/

namespace HyperCast

/-- Python exception classes relevant to the pipeline.
`valueError` is what sklearn raises on a feature-count mismatch,
`keyError` is what pandas raises when a subset column is missing,
`dataError` is the error class named by the specification's taxonomy
(never defined nor raised by the code). -/
inductive PyError where
  | valueError : PyError
  | keyError : PyError
  | dataError : PyError
deriving DecidableEq, Repr

/-- A numpy 2-D array: a fixed column count and the rows.
A well-formed array has every row of length `ncols`. -/
structure NPMatrix where
  ncols : Nat
  rows : List (List Rat)
deriving DecidableEq, Repr

/-- Well-formedness of a numpy 2-D array: rectangular with `ncols` columns. -/
def NPMatrix.WF (m : NPMatrix) : Prop :=
  ∀ r ∈ m.rows, r.length = m.ncols

instance (m : NPMatrix) : Decidable m.WF := by
  unfold NPMatrix.WF; infer_instance

/-- sklearn `StandardScaler` after fitting: per-feature means (`mean_`),
per-feature scales (`scale_`) and the fitted column count
(`n_features_in_`). -/
structure Scaler where
  means : List Rat
  scales : List Rat
  nFeaturesIn : Nat
deriving DecidableEq, Repr

/-- Standardize one row: `(x - mean_j) / scale_j` componentwise. -/
def Scaler.transformRow (s : Scaler) (r : List Rat) : List Rat :=
  (r.zip (s.means.zip s.scales)).map (fun p => (p.1 - p.2.1) / p.2.2)

/-- Un-standardize one row: `x * scale_j + mean_j` componentwise. -/
def Scaler.inverseRow (s : Scaler) (r : List Rat) : List Rat :=
  (r.zip (s.means.zip s.scales)).map (fun p => p.1 * p.2.2 + p.2.1)

/-- Model of `StandardScaler.transform`: validates that the input has
`n_features_in_` columns (raising `ValueError` otherwise, as sklearn's
`_check_n_features` does), then standardizes every row. -/
def Scaler.transform (s : Scaler) (m : NPMatrix) : Except PyError NPMatrix :=
  if m.ncols = s.nFeaturesIn then
    .ok ⟨m.ncols, m.rows.map s.transformRow⟩
  else
    .error .valueError

/-- Model of `StandardScaler.inverse_transform`: the same column-count validation,
then un-standardizes every row. -/
def Scaler.inverseTransform (s : Scaler) (m : NPMatrix) : Except PyError NPMatrix :=
  if m.ncols = s.nFeaturesIn then
    .ok ⟨m.ncols, m.rows.map s.inverseRow⟩
  else
    .error .valueError

/-- Mean of a list of rationals (0 for the empty list, as numpy's
mean of an empty axis would be degenerate; fitting always sees the
actual rows). -/
def listMean (l : List Rat) : Rat := l.sum / l.length

/-- Column `j` of a matrix. -/
def NPMatrix.col (m : NPMatrix) (j : Nat) : List Rat :=
  m.rows.map (fun r => r.getD j 0)

/-- Mean of column `j`. -/
def colMean (m : NPMatrix) (j : Nat) : Rat := listMean (m.col j)

/-- (Biased) variance of column `j`, as `StandardScaler` computes it. -/
def colVar (m : NPMatrix) (j : Nat) : Rat :=
  listMean ((m.col j).map (fun x => (x - colMean m j) ^ 2))

/-- The relation "scaler `s` is the result of `StandardScaler.fit` on
matrix `m`": means are the column means, and each scale is the
(non-negative) square root of the column variance, except that a
zero-variance column gets scale 1 (sklearn's `_handle_zeros_in_scale`). -/
def FittedOn (s : Scaler) (m : NPMatrix) : Prop :=
  s.nFeaturesIn = m.ncols ∧
  s.means.length = m.ncols ∧
  s.scales.length = m.ncols ∧
  (∀ j, j < m.ncols → s.means.getD j 0 = colMean m j) ∧
  (∀ j, j < m.ncols →
    0 ≤ s.scales.getD j 0 ∧
    (if colVar m j = 0 then s.scales.getD j 0 = 1
     else (s.scales.getD j 0) ^ 2 = colVar m j))

instance (s : Scaler) (m : NPMatrix) : Decidable (FittedOn s m) := by
  unfold FittedOn; infer_instance

/-! ### `WeatherFeatureEngineer.create_sequences`
(src/data/processing/feature_engineering.py, lines 69-118) -/

/-- The default `sequence_length` of `WeatherFeatureEngineer`
(feature_engineering.py line 21). -/
def defaultSequenceLength : Nat := 8

/-- The default `forecast_horizon` of `WeatherFeatureEngineer`
(feature_engineering.py line 21). -/
def defaultForecastHorizon : Nat := 8

/-- A prepared dataframe as `create_sequences` consumes it: whether a
`timestamp` column is present, the timestamp column itself, and the
selected numeric feature columns (temperature first).  In pandas the
columns are aligned, so `tss.length = feats.rows.length` whenever the
timestamp column exists. -/
structure PreparedFrame where
  hasTimestamp : Bool
  tss : List Int
  feats : NPMatrix
deriving DecidableEq, Repr

/-- Python list/array indexing: a negative index wraps around from the
end; an index out of range is modelled by the default value. -/
def pyGet {α : Type} (l : List α) (k : Int) (dflt : α) : α :=
  let k' := if k < 0 then k + l.length else k
  if 0 ≤ k' then l.getD k'.toNat dflt else dflt

/-- The number of iterations of
`for i in range(len(df) - sequence_length - forecast_horizon + 1)`:
`max(0, N - L - H + 1)` expressed with truncated subtraction. -/
def numWindows (n L H : Nat) : Nat := (n + 1) - (L + H)

/-- The sequence-building loop of `create_sequences` (lines 104-118):
for each window index `i`, the input is rows `[i, i+L)` of the scaled
matrix, the target is the scaled value at row `i + L + H - 1`, column 0,
and (when a timestamp column exists) the target's timestamp at the same
row. -/
def createSeqCore (L H : Nat) (scaled : List (List Rat)) (tss : List Int)
    (hasTs : Bool) :
    List (List (List Rat)) × List Rat × List Int :=
  ((List.range (numWindows scaled.length L H)).map
     (fun i => (scaled.drop i).take L),
   (List.range (numWindows scaled.length L H)).map
     (fun (i : Nat) => (pyGet scaled ((i : Int) + L + H - 1) []).headD 0),
   if hasTs then
     (List.range (numWindows scaled.length L H)).map
       (fun (i : Nat) => pyGet tss ((i : Int) + L + H - 1) 0)
   else [])

/-- Path of `create_sequences` with `fit_scaler=True`: the scaler is fit on the
feature matrix itself (so `FittedOn s df.feats` in the theorems) and
the matrix is standardized with it, then the window loop runs.
Fitting on the very matrix being transformed can never hit the
column-count check, so this path is total. -/
def create_sequences_fit (L H : Nat) (s : Scaler) (df : PreparedFrame) :
    List (List (List Rat)) × List Rat × List Int :=
  createSeqCore L H (df.feats.rows.map s.transformRow) df.tss df.hasTimestamp

/-- Path of `create_sequences` with `fit_scaler=False`: the previously fitted
(restored) scaler's `transform` runs first, and its column-count
validation can fail; only then does the window loop run. -/
def create_sequences_noFit (L H : Nat) (s : Scaler) (df : PreparedFrame) :
    Except PyError (List (List (List Rat)) × List Rat × List Int) :=
  match s.transform df.feats with
  | .error e => .error e
  | .ok scaled => .ok (createSeqCore L H scaled.rows df.tss df.hasTimestamp)

/-! ### `WeatherFeatureEngineer.prepare_data`
(src/data/processing/feature_engineering.py, lines 34-67) -/

/-- A raw observation row: the timestamp and the numeric values, where a
missing value (`NaN` in pandas) is `none`. -/
structure RawRow where
  ts : Int
  vals : List (Option Rat)
deriving DecidableEq, Repr

/-- A raw dataframe handed to `prepare_data`: whether a `timestamp`
column exists, and the rows. -/
structure RawFrame where
  hasTimestamp : Bool
  rows : List RawRow
deriving DecidableEq, Repr

/-- One insertion step of sorting by timestamp (the `sort_values`
call): the new row goes before the first row with a timestamp `≥` its
own. -/
def insertByTs (r : RawRow) : List RawRow → List RawRow
  | [] => [r]
  | x :: rest => if r.ts ≤ x.ts then r :: x :: rest else x :: insertByTs r rest

/-- Model of `df.sort_values('timestamp')`: sort rows by timestamp ascending. -/
def sortByTs : List RawRow → List RawRow
  | [] => []
  | x :: rest => insertByTs x (sortByTs rest)

/-- Model of `df.drop_duplicates(subset=['timestamp'], keep='first')`: scan
forward, keeping a row only if its timestamp has not been seen yet. -/
def dedupFirstAux (seen : List Int) : List RawRow → List RawRow
  | [] => []
  | r :: rest =>
    if r.ts ∈ seen then dedupFirstAux seen rest
    else r :: dedupFirstAux (r.ts :: seen) rest

/-- Deduplication keeping the first occurrence of each timestamp. -/
def dedupFirst (l : List RawRow) : List RawRow := dedupFirstAux [] l

/-- Left-biased choice on optional values (`Option.orElse` without the
thunk), used to describe the fills. -/
def oElse (a b : Option Rat) : Option Rat :=
  match a with
  | some v => some v
  | none => b

/-- First present (non-`NaN`) value of a column segment. -/
def firstKnown : List (Option Rat) → Option Rat
  | [] => none
  | x :: rest => oElse x (firstKnown rest)

/-- Last present (non-`NaN`) value of a column segment. -/
def lastKnown : List (Option Rat) → Option Rat
  | [] => none
  | x :: rest => oElse (lastKnown rest) x

/-- One column of `fillna(method='ffill')`: each missing entry takes the
carried-forward last known value. -/
def ffillAux (carry : Option Rat) : List (Option Rat) → List (Option Rat)
  | [] => []
  | x :: rest =>
    match x with
    | some v => some v :: ffillAux (some v) rest
    | none => carry :: ffillAux carry rest

/-- Forward fill of one column. -/
def ffillCol (c : List (Option Rat)) : List (Option Rat) := ffillAux none c

/-- One column of `fillna(method='bfill')`: each missing entry takes the
next known value, i.e. a forward fill of the reversed column. -/
def bfillCol (c : List (Option Rat)) : List (Option Rat) :=
  (ffillAux none c.reverse).reverse

/-- Column `j` of a list of rows of optional values. -/
def getOptCol (rows : List (List (Option Rat))) (j : Nat) : List (Option Rat) :=
  rows.map (fun r => r.getD j none)

/-- Model of the line
`df[numeric_cols] = df[numeric_cols].fillna(method='ffill').fillna(method='bfill')`:
fill every one of the `ncols` numeric columns forward then backward and
reassemble the rows. -/
def fillRows (ncols : Nat) (rows : List (List (Option Rat))) :
    List (List (Option Rat)) :=
  (List.range rows.length).map (fun i =>
    ((List.range ncols).map (fun j => bfillCol (ffillCol (getOptCol rows j)))).map
      (fun c => c.getD i none))

/-- Extensional description of filling forward then backward: the value
at row `i` is the original entry if present, else the most recent
earlier present value, else the next later present value, else still
missing. -/
def fillSpec (c : List (Option Rat)) (i : Nat) : Option Rat :=
  oElse (c.getD i none) (oElse (lastKnown (c.take i)) (firstKnown (c.drop (i + 1))))

/-- The cleaned table `prepare_data` returns: the timestamp column and
the filled numeric columns (original columns followed by the derived
time columns). -/
structure CleanFrame where
  tss : List Int
  vals : List (List (Option Rat))
deriving DecidableEq, Repr

/-- Model of `WeatherFeatureEngineer.prepare_data` (lines 44-65).  `enc ts` is
the list of numeric time columns derived from the timestamp
(`hour`, `day_of_year`, `hour_sin`, `hour_cos`, `day_sin`, `day_cos`),
kept abstract because the sines and cosines are irrational; `origN` is
the raw numeric column count and `encN` the derived column count.
When the `timestamp` column is present the rows are sorted ascending,
duplicates dropped keeping the first occurrence, the time columns
appended, and every numeric column filled forward then backward.  When
it is absent, `df.drop_duplicates(subset=['timestamp'])` — which runs
unconditionally at line 52 — raises a pandas `KeyError`. -/
def prepare_data (enc : Int → List Rat) (origN encN : Nat) (t : RawFrame) :
    Except PyError CleanFrame :=
  if t.hasTimestamp then
    let deduped := dedupFirst (sortByTs t.rows)
    let withFeats := deduped.map (fun r => r.vals ++ (enc r.ts).map some)
    .ok ⟨deduped.map (fun r => r.ts), fillRows (origN + encN) withFeats⟩
  else
    .error .keyError

/-! ### `WeatherPredictor.predict` and `predict_from_sequence`
(src/services/ml/inference.py, lines 48-101) -/

/-- The dictionary `WeatherPredictor.predict` returns. -/
structure PredResult where
  temperature_celsius : Rat
  temperature_fahrenheit : Rat
  forecast_hours : Nat
  confidence : Rat
deriving DecidableEq, Repr

/-- Model of `WeatherPredictor.predict` (lines 48-89).  The trained network is
abstracted as a function `model` from the standardized window to the
standardized scalar output.  The input is standardized with the loaded
scaler, the model is run, the scalar is placed at index 0 of a zero row
of length `n_features_in_`, that row is inverse-transformed, and the
recovered Celsius value is converted to Fahrenheit; `forecast_hours`
is `forecast_horizon * 3` and the confidence is the 0.85 placeholder. -/
def predict (s : Scaler) (model : List (List Rat) → Rat)
    (forecastHorizon : Nat) (recent : NPMatrix) : Except PyError PredResult :=
  match s.transform recent with
  | .error e => .error e
  | .ok scaled =>
    let pred := model scaled.rows
    let dummy : List Rat := (List.replicate s.nFeaturesIn 0).set 0 pred
    match s.inverseTransform ⟨s.nFeaturesIn, [dummy]⟩ with
    | .error e => .error e
    | .ok unscaled =>
      let c := (unscaled.rows.headD []).headD 0
      .ok ⟨c, c * 9 / 5 + 32, forecastHorizon * 3, 85 / 100⟩

/-- Model of `WeatherPredictor.predict_from_sequence` (lines 91-101): documented
as taking an already-scaled sequence, but its body is exactly
`return self.predict(sequence)`. -/
def predict_from_sequence (s : Scaler) (model : List (List Rat) → Rat)
    (forecastHorizon : Nat) (sequence : NPMatrix) : Except PyError PredResult :=
  predict s model forecastHorizon sequence

/-! ### The training loop of `train.py` `main`
(src/services/ml/train.py, lines 190-231) -/

/-- The `model_config` dictionary stored in a checkpoint. -/
structure ModelConfig where
  input_size : Nat
  hidden_size : Nat
  num_layers : Nat
  dropout : Rat
deriving DecidableEq, Repr

/-- The checkpoint dictionary `torch.save` persists on a strict
validation-loss improvement (lines 210-225).  Weights, optimizer state
and metadata are abstract types. -/
structure Checkpoint (W O M : Type) where
  epoch : Nat
  model_state_dict : W
  optimizer_state_dict : O
  train_loss : Rat
  val_loss : Rat
  metadata : M
  model_config : ModelConfig
deriving DecidableEq

/-- What one epoch of the training loop did: the losses, the value of
`best_val_loss` (`none` is `float('inf')`) and of `patience_counter`
after the epoch, and the checkpoint written this epoch, if any. -/
structure EpochLog (W O M : Type) where
  epoch : Nat
  train_loss : Rat
  val_loss : Rat
  bestAfter : Option Rat
  counterAfter : Nat
  saved : Option (Checkpoint W O M)
deriving DecidableEq

/-- The test `val_loss < best_val_loss` of line 206, with
`best_val_loss = none` standing for the initial `float('inf')`. -/
def improvedB (best : Option Rat) (v : Rat) : Bool :=
  match best with
  | none => true
  | some b => decide (v < b)

/-- The epoch loop (lines 198-231).  `wAt e` / `oAt e` are the model and
optimizer states after epoch `e`'s gradient updates, `tl e` / `vl e`
the train and validation losses of epoch `e` — all abstract functions,
since the loop's control flow depends only on the validation losses.
State: remaining epochs, `best_val_loss` (`none` = `float('inf')`),
`patience_counter`, current epoch index.  On a strict improvement the
best is updated, the counter reset and the full checkpoint written;
otherwise the counter is incremented and, once it reaches the patience,
the loop breaks.  Returns the per-epoch logs and, when early stopping
broke the loop, the epoch it broke at. -/
def runLoop {W O M : Type} (wAt : Nat → W) (oAt : Nat → O)
    (tl vl : Nat → Rat) (md : M) (cfg : ModelConfig) (patience : Nat) :
    Nat → Option Rat → Nat → Nat → List (EpochLog W O M) × Option Nat
  | 0, _, _, _ => ([], none)
  | n + 1, best, counter, e =>
    if improvedB best (vl e) then
      (⟨e, tl e, vl e, some (vl e), 0,
         some ⟨e, wAt e, oAt e, tl e, vl e, md, cfg⟩⟩ ::
           (runLoop wAt oAt tl vl md cfg patience n (some (vl e)) 0 (e + 1)).1,
       (runLoop wAt oAt tl vl md cfg patience n (some (vl e)) 0 (e + 1)).2)
    else
      if patience ≤ counter + 1 then
        ([⟨e, tl e, vl e, best, counter + 1, none⟩], some e)
      else
        (⟨e, tl e, vl e, best, counter + 1, none⟩ ::
           (runLoop wAt oAt tl vl md cfg patience n best (counter + 1) (e + 1)).1,
         (runLoop wAt oAt tl vl md cfg patience n best (counter + 1) (e + 1)).2)

/-- The whole training loop of `main`: `best_val_loss` starts at
`float('inf')`, `patience_counter` at 0, epochs run `0 .. epochs-1`. -/
def trainLoop {W O M : Type} (wAt : Nat → W) (oAt : Nat → O)
    (tl vl : Nat → Rat) (md : M) (cfg : ModelConfig)
    (patience epochs : Nat) : List (EpochLog W O M) × Option Nat :=
  runLoop wAt oAt tl vl md cfg patience epochs none 0 0

/-- Specification-side running minimum: the best validation loss seen
strictly before epoch `e` (`none` = `float('inf')` when no epoch ran
yet). -/
def runMin (vl : Nat → Rat) : Nat → Option Rat
  | 0 => none
  | e + 1 =>
    match runMin vl e with
    | none => some (vl e)
    | some b => some (min (vl e) b)

/-- Specification-side: epoch `e` strictly improves on the best
validation loss seen before it. -/
def improvedAt (vl : Nat → Rat) (e : Nat) : Bool :=
  improvedB (runMin vl e) (vl e)

/-- Specification-side: the count of consecutive non-improving epochs
since the most recent strict improvement, as it stands before epoch
`e` runs. -/
def streakBefore (vl : Nat → Rat) : Nat → Nat
  | 0 => 0
  | e + 1 => if improvedAt vl e then 0 else streakBefore vl e + 1

/-- Specification-side: the same count just after epoch `e` ran. -/
def streakAfter (vl : Nat → Rat) (e : Nat) : Nat := streakBefore vl (e + 1)

/-- What one epoch's log must be, according to the specification-side
quantities: the checkpoint is present exactly on a strict improvement
and then carries the full state of epoch `e`. -/
def specLog {W O M : Type} (wAt : Nat → W) (oAt : Nat → O)
    (tl vl : Nat → Rat) (md : M) (cfg : ModelConfig) (e : Nat) :
    EpochLog W O M :=
  { epoch := e, train_loss := tl e, val_loss := vl e,
    bestAfter := runMin vl (e + 1), counterAfter := streakAfter vl e,
    saved := if improvedAt vl e then some ⟨e, wAt e, oAt e, tl e, vl e, md, cfg⟩
             else none }

/-- Comparison of best losses: `x` is at most `y`, where `none` stands for `float('inf')`. -/
def leInf (x y : Option Rat) : Bool :=
  match x, y with
  | _, none => true
  | none, some _ => false
  | some a, some b => decide (a ≤ b)

/-! ### The serving endpoint `get_forecast`
(src/services/api/app/main.py, lines 74-91) -/

/-- The last `n` rows of a table (`df.iloc[-n:]` for `n ≥ 1`). -/
def lastN (n : Nat) (rows : List (List Rat)) : List (List Rat) :=
  rows.drop (rows.length - n)

/-- Model of the inference-window construction in `get_forecast` (line 88):
`recent_data = df[features].iloc[-4:].values` — the last **4** rows of
the processed table, a hardcoded constant. -/
def forecastWindow (rows : List (List Rat)) : List (List Rat) :=
  rows.drop (rows.length - 4)

/-! ## Helper lemmas -/

lemma getD_map_range {α : Type} (f : Nat → α) (n i : Nat) (h : i < n) (d : α) :
    ((List.range n).map f).getD i d = f i := by
  rw [List.getD_eq_getElem?_getD, List.getElem?_map, List.getElem?_range h]
  rfl

lemma getD_map_lt {α β : Type} (f : α → β) (l : List α) (i : Nat)
    (h : i < l.length) (d : α) (d' : β) :
    (l.map f).getD i d' = f (l.getD i d) := by
  rw [List.getD_eq_getElem?_getD, List.getElem?_map,
    List.getElem?_eq_getElem h, List.getD_eq_getElem?_getD,
    List.getElem?_eq_getElem h]
  rfl

lemma pyGet_nonneg {α : Type} (l : List α) (k : Int) (d : α) (hk : 0 ≤ k) :
    pyGet l k d = l.getD k.toNat d := by
  simp only [pyGet]
  rw [if_neg (not_lt.mpr hk), if_pos hk]

lemma numWindows_cast (n L H : Nat) :
    ((numWindows n L H : Nat) : Int) = max 0 ((n : Int) - L - H + 1) := by
  unfold numWindows
  rw [max_def]
  split <;> omega

/-! ## Claim C1 -/

/-- C1: for every cleaned table of `N` rows, `create_sequences` produces
exactly `max(0, N - sequence_length - forecast_horizon + 1)` windows —
the same count for `X`, for `y`, and (when the timestamp column exists)
for `timestamps` — and when no valid window exists it returns empty
arrays rather than raising an error. -/
theorem c1_window_count (L H : Nat) (s : Scaler) (df : PreparedFrame) :
    ((create_sequences_fit L H s df).1.length : Int)
        = max 0 ((df.feats.rows.length : Int) - L - H + 1) ∧
    ((create_sequences_fit L H s df).2.1.length : Int)
        = max 0 ((df.feats.rows.length : Int) - L - H + 1) ∧
    (create_sequences_fit L H s df).2.2.length
        = (if df.hasTimestamp = true then (create_sequences_fit L H s df).1.length
           else 0) ∧
    ((df.feats.rows.length : Int) - L - H + 1 ≤ 0 →
      create_sequences_fit L H s df = ([], [], [])) := by
  have hn : (df.feats.rows.map s.transformRow).length = df.feats.rows.length :=
    List.length_map _ _
  refine ⟨?_, ?_, ?_, ?_⟩
  · simp only [create_sequences_fit, createSeqCore]
    rw [List.length_map, List.length_range, hn, numWindows_cast]
  · simp only [create_sequences_fit, createSeqCore]
    rw [List.length_map, List.length_range, hn, numWindows_cast]
  · simp only [create_sequences_fit, createSeqCore]
    cases hts : df.hasTimestamp
    · rw [if_neg (by simp), if_neg (by simp)]
      rfl
    · rw [if_pos rfl, if_pos rfl]
      simp
  · intro h
    have h0 : numWindows (df.feats.rows.map s.transformRow).length L H = 0 := by
      unfold numWindows; rw [hn]; omega
    simp only [create_sequences_fit, createSeqCore, h0]
    simp

/-- C1 witness: 20 rows with `sequence_length = 8`,
`forecast_horizon = 8` give exactly 5 windows, and 15 rows give empty
arrays. -/
theorem c1_window_count_witness :
    (((create_sequences_fit 8 8 ⟨[0], [1], 1⟩
        ⟨true, (List.range 20).map Int.ofNat,
         ⟨1, (List.range 20).map (fun i => [(i : Rat)])⟩⟩).1.length : Int)
      = max 0 ((20 : Int) - 8 - 8 + 1)) ∧
    ((20 : Int) - 8 - 8 + 1 = 5) ∧
    (((15 : Int) - 8 - 8 + 1 ≤ 0) ∧
      create_sequences_fit 8 8 ⟨[0], [1], 1⟩
        ⟨true, (List.range 15).map Int.ofNat,
         ⟨1, (List.range 15).map (fun i => [(i : Rat)])⟩⟩ = ([], [], [])) := by
  refine ⟨?_, by norm_num, by decide,
    (c1_window_count 8 8 ⟨[0], [1], 1⟩ _).2.2.2 (by decide)⟩
  have h := (c1_window_count 8 8 ⟨[0], [1], 1⟩
    ⟨true, (List.range 20).map Int.ofNat,
     ⟨1, (List.range 20).map (fun i => [(i : Rat)])⟩⟩).1
  simpa using h

/-! ## Claim C2 -/

/-- C2: for every window index `i` produced by `create_sequences`, the
target `y[i]` is the standardized value of feature column 0 (the head
of the standardized row) at row index
`i + sequence_length + forecast_horizon - 1`, and `timestamps[i]` is
the cleaned table's timestamp at that same row index. -/
theorem c2_target_index (L H : Nat) (s : Scaler) (df : PreparedFrame)
    (i : Nat) (hLH : 1 ≤ L + H)
    (hi : i < numWindows df.feats.rows.length L H)
    (_hts : df.tss.length = df.feats.rows.length) :
    (create_sequences_fit L H s df).2.1.getD i 0
      = (s.transformRow (df.feats.rows.getD (i + L + H - 1) [])).headD 0 ∧
    (df.hasTimestamp = true →
      (create_sequences_fit L H s df).2.2.getD i 0
        = df.tss.getD (i + L + H - 1) 0) := by
  have hn : (df.feats.rows.map s.transformRow).length = df.feats.rows.length :=
    List.length_map _ _
  have hidx : i + L + H - 1 < df.feats.rows.length := by
    unfold numWindows at hi; omega
  have hk : (0 : Int) ≤ (i : Int) + L + H - 1 := by omega
  have hkn : ((i : Int) + L + H - 1).toNat = i + L + H - 1 := by omega
  constructor
  · simp only [create_sequences_fit, createSeqCore]
    rw [hn, getD_map_range _ _ _ hi, pyGet_nonneg _ _ _ hk, hkn,
      getD_map_lt s.transformRow df.feats.rows _ hidx [] []]
  · intro hTs
    simp only [create_sequences_fit, createSeqCore]
    rw [hTs, if_pos rfl, hn, getD_map_range _ _ _ hi, pyGet_nonneg _ _ _ hk, hkn]

/-- C2 witness: with 6 rows, `sequence_length = 2`,
`forecast_horizon = 2` and the identity-like scaler, window 1's target
comes from row 4 and carries timestamp 4. -/
theorem c2_target_index_witness :
    ((1 ≤ 2 + 2) ∧ 1 < numWindows 6 2 2 ∧
      ((List.range 6).map Int.ofNat).length
        = ((List.range 6).map (fun i => [(i : Rat)])).length) ∧
    ((create_sequences_fit 2 2 ⟨[0], [1], 1⟩
        ⟨true, (List.range 6).map Int.ofNat,
         ⟨1, (List.range 6).map (fun i => [(i : Rat)])⟩⟩).2.1.getD 1 0
      = ((Scaler.mk [0] [1] 1).transformRow
          (((List.range 6).map (fun i => [(i : Rat)])).getD (1 + 2 + 2 - 1) [])).headD 0 ∧
    (true = true →
      (create_sequences_fit 2 2 ⟨[0], [1], 1⟩
        ⟨true, (List.range 6).map Int.ofNat,
         ⟨1, (List.range 6).map (fun i => [(i : Rat)])⟩⟩).2.2.getD 1 0
        = ((List.range 6).map Int.ofNat).getD (1 + 2 + 2 - 1) 0)) :=
  ⟨⟨by decide, by decide, by decide⟩,
   c2_target_index 2 2 ⟨[0], [1], 1⟩
     ⟨true, (List.range 6).map Int.ofNat,
      ⟨1, (List.range 6).map (fun i => [(i : Rat)])⟩⟩ 1
     (by decide) (by decide) (by decide)⟩

/-! ## Scaler algebra -/

lemma std_roundtrip_aux : ∀ (r ms ss : List Rat), r.length ≤ ms.length →
    r.length ≤ ss.length → (∀ j, j < r.length → ss.getD j 0 ≠ 0) →
    (((r.zip (ms.zip ss)).map (fun p => (p.1 - p.2.1) / p.2.2)).zip (ms.zip ss)).map
      (fun p => p.1 * p.2.2 + p.2.1) = r := by
  intro r
  induction r with
  | nil => intro ms ss _ _ _; rfl
  | cons x r ih =>
    intro ms ss h1 h2 hσ
    cases ms with
    | nil => simp at h1
    | cons μ ms =>
      cases ss with
      | nil => simp at h2
      | cons σ ss =>
        have hσ0 : σ ≠ 0 := by
          have h := hσ 0 (by simp)
          simpa using h
        simp only [List.zip_cons_cons, List.map_cons]
        congr 1
        · rw [div_mul_cancel₀ _ hσ0]
          ring
        · exact ih ms ss (by simpa using h1) (by simpa using h2)
            (fun j hj => by
              have h := hσ (j + 1) (by simpa using Nat.succ_lt_succ hj)
              simpa using h)

lemma inverseRow_transformRow (s : Scaler) (r : List Rat)
    (h1 : r.length ≤ s.means.length) (h2 : r.length ≤ s.scales.length)
    (hσ : ∀ j, j < r.length → s.scales.getD j 0 ≠ 0) :
    s.inverseRow (s.transformRow r) = r := by
  simp only [Scaler.inverseRow, Scaler.transformRow]
  exact std_roundtrip_aux r s.means s.scales h1 h2 hσ

lemma fitted_scales_ne_zero (s : Scaler) (m : NPMatrix) (hfit : FittedOn s m)
    (j : Nat) (hj : j < m.ncols) (hv : colVar m j ≠ 0) :
    s.scales.getD j 0 ≠ 0 := by
  have h5 := (hfit.2.2.2.2 j hj).2
  rw [if_neg hv] at h5
  intro h0
  rw [h0] at h5
  exact hv (by simpa using h5.symm)

/-! ## Claim C6 -/

/-- C6: for every well-formed feature matrix all of whose columns have
non-zero variance, fitting the scaler on it and applying
`inverse_transform` to the standardized matrix reconstructs the
original matrix exactly (in this exact-rational model the
floating-point tolerance of the claim becomes equality). -/
theorem c6_roundtrip (s : Scaler) (m : NPMatrix) (hwf : m.WF)
    (hfit : FittedOn s m) (hnd : ∀ j, j < m.ncols → colVar m j ≠ 0) :
    Except.bind (s.transform m) s.inverseTransform = Except.ok m := by
  have hcheck : m.ncols = s.nFeaturesIn := hfit.1.symm
  have hrows : (m.rows.map s.transformRow).map s.inverseRow = m.rows := by
    rw [List.map_map]
    have hid : ∀ r ∈ m.rows, (s.inverseRow ∘ s.transformRow) r = id r := by
      intro r hr
      have hlen : r.length = m.ncols := hwf r hr
      exact inverseRow_transformRow s r
        (by rw [hlen, hfit.2.1])
        (by rw [hlen, hfit.2.2.1])
        (fun j hj => fitted_scales_ne_zero s m hfit j (by omega)
          (hnd j (by omega)))
    rw [List.map_congr_left hid, List.map_id]
  simp only [Scaler.transform, if_pos hcheck, Except.bind,
    Scaler.inverseTransform, if_pos hcheck, hrows]

/-- C6 witness: a concrete 2×2 matrix with column variances 1 and 25,
and the scaler fit on it. -/
theorem c6_roundtrip_witness :
    ((NPMatrix.mk 2 [[0, 10], [2, 20]]).WF ∧
      FittedOn ⟨[1, 15], [1, 5], 2⟩ ⟨2, [[0, 10], [2, 20]]⟩ ∧
      (∀ j, j < 2 → colVar ⟨2, [[0, 10], [2, 20]]⟩ j ≠ 0)) ∧
    Except.bind (Scaler.transform ⟨[1, 15], [1, 5], 2⟩ ⟨2, [[0, 10], [2, 20]]⟩)
        (Scaler.inverseTransform ⟨[1, 15], [1, 5], 2⟩)
      = Except.ok ⟨2, [[0, 10], [2, 20]]⟩ := by
  have hwf : (NPMatrix.mk 2 [[0, 10], [2, 20]]).WF := by decide
  have hfit : FittedOn ⟨[1, 15], [1, 5], 2⟩ ⟨2, [[0, 10], [2, 20]]⟩ := by
    refine ⟨rfl, rfl, rfl, ?_, ?_⟩ <;>
      · intro j hj
        interval_cases j <;>
          norm_num [colMean, colVar, listMean, NPMatrix.col]
  have hnd : ∀ j, j < 2 → colVar ⟨2, [[0, 10], [2, 20]]⟩ j ≠ 0 := by
    intro j hj
    interval_cases j <;> norm_num [colVar, colMean, listMean, NPMatrix.col]
  exact ⟨⟨hwf, hfit, hnd⟩,
    c6_roundtrip ⟨[1, 15], [1, 5], 2⟩ ⟨2, [[0, 10], [2, 20]]⟩ hwf hfit hnd⟩

/-! ## Claims C7 and C10 -/

lemma predict_eval (s : Scaler) (model : List (List Rat) → Rat) (fh : Nat)
    (m : NPMatrix) (hc : m.ncols = s.nFeaturesIn)
    (hm : s.means.length = s.nFeaturesIn) (hs : s.scales.length = s.nFeaturesIn)
    (h0 : 0 < s.nFeaturesIn) :
    predict s model fh m = Except.ok
      ⟨s.means.getD 0 0 + s.scales.getD 0 0 * model (m.rows.map s.transformRow),
       (s.means.getD 0 0 + s.scales.getD 0 0 * model (m.rows.map s.transformRow))
         * 9 / 5 + 32,
       fh * 3, 85 / 100⟩ := by
  obtain ⟨k, hk⟩ : ∃ k, s.nFeaturesIn = k + 1 := ⟨s.nFeaturesIn - 1, by omega⟩
  obtain ⟨μ, ms, hμ⟩ := List.exists_cons_of_ne_nil
    (show s.means ≠ [] by intro h; rw [h] at hm; simp at hm; omega)
  obtain ⟨σ, ss, hσ⟩ := List.exists_cons_of_ne_nil
    (show s.scales ≠ [] by intro h; rw [h] at hs; simp at hs; omega)
  have ht : s.transform m = .ok ⟨m.ncols, m.rows.map s.transformRow⟩ := by
    simp only [Scaler.transform, if_pos hc]
  have hd : (List.replicate s.nFeaturesIn (0 : Rat)).set 0
        (model (m.rows.map s.transformRow))
      = model (m.rows.map s.transformRow) :: List.replicate k 0 := by
    rw [hk, List.replicate_succ, List.set_cons_zero]
  have hinv : s.inverseTransform ⟨s.nFeaturesIn,
        [model (m.rows.map s.transformRow) :: List.replicate k 0]⟩
      = .ok ⟨s.nFeaturesIn,
        [s.inverseRow (model (m.rows.map s.transformRow) :: List.replicate k 0)]⟩ := by
    simp [Scaler.inverseTransform]
  unfold predict
  rw [ht]
  dsimp only
  rw [hd, hinv]
  dsimp only
  simp only [Scaler.inverseRow, hμ, hσ, List.zip_cons_cons, List.map_cons,
    List.headD_cons, List.getD_cons_zero]
  rw [Except.ok.injEq, PredResult.mk.injEq]
  refine ⟨by ring, by ring, rfl, rfl⟩

/-- C7: for every input window with the fitted column count,
`Predictor.predict` recovers the Celsius forecast by placing the
model's standardized scalar at index 0 of a zero vector and running the
full inverse transform — so `celsius = mean_0 + std_0 * scalar` — and
returns `fahrenheit = celsius * 9/5 + 32` and
`forecast_hours = forecast_horizon * 3` (with the 0.85 placeholder
confidence). -/
theorem c7_predict_formula (s : Scaler) (model : List (List Rat) → Rat)
    (fh : Nat) (m : NPMatrix) (hc : m.ncols = s.nFeaturesIn)
    (hm : s.means.length = s.nFeaturesIn) (hs : s.scales.length = s.nFeaturesIn)
    (h0 : 0 < s.nFeaturesIn) :
    predict s model fh m = Except.ok
      ⟨s.means.getD 0 0 + s.scales.getD 0 0 * model (m.rows.map s.transformRow),
       (s.means.getD 0 0 + s.scales.getD 0 0 * model (m.rows.map s.transformRow))
         * 9 / 5 + 32,
       fh * 3, 85 / 100⟩ :=
  predict_eval s model fh m hc hm hs h0

/-- C7 witness: scaler with `mean_0 = 10`, `std_0 = 2`, a model that
returns 3, horizon 8: Celsius 16, Fahrenheit 60.8, 24 forecast hours. -/
theorem c7_predict_formula_witness :
    ((NPMatrix.mk 2 [[1, 2]]).ncols = (Scaler.mk [10, 0] [2, 1] 2).nFeaturesIn ∧
      0 < (Scaler.mk [10, 0] [2, 1] 2).nFeaturesIn) ∧
    predict ⟨[10, 0], [2, 1], 2⟩ (fun _ => 3) 8 ⟨2, [[1, 2]]⟩ = Except.ok
      ⟨[(10 : Rat), 0].getD 0 0 + [(2 : Rat), 1].getD 0 0
          * (fun _ => (3 : Rat)) (([[(1 : Rat), 2]]).map
              (Scaler.transformRow ⟨[10, 0], [2, 1], 2⟩)),
       ([(10 : Rat), 0].getD 0 0 + [(2 : Rat), 1].getD 0 0
          * (fun _ => (3 : Rat)) (([[(1 : Rat), 2]]).map
              (Scaler.transformRow ⟨[10, 0], [2, 1], 2⟩))) * 9 / 5 + 32,
       8 * 3, 85 / 100⟩ :=
  ⟨⟨rfl, by decide⟩,
   c7_predict_formula ⟨[10, 0], [2, 1], 2⟩ (fun _ => 3) 8 ⟨2, [[1, 2]]⟩
     rfl rfl rfl (by decide)⟩

/-- C10: `predict_from_sequence` returns exactly the same result as
`predict` on every input — its body is a delegation — and in
particular, under the usual shape hypotheses, it standardizes the
(supposedly already-scaled) input once more: the model is applied to
`transformRow` of the rows it was given. -/
theorem c10_predict_from_sequence_eq (s : Scaler)
    (model : List (List Rat) → Rat) (fh : Nat) (sequence : NPMatrix)
    (hc : sequence.ncols = s.nFeaturesIn)
    (hm : s.means.length = s.nFeaturesIn)
    (hs : s.scales.length = s.nFeaturesIn) (h0 : 0 < s.nFeaturesIn) :
    predict_from_sequence s model fh sequence = predict s model fh sequence ∧
    predict_from_sequence s model fh sequence = Except.ok
      ⟨s.means.getD 0 0
          + s.scales.getD 0 0 * model (sequence.rows.map s.transformRow),
       (s.means.getD 0 0
          + s.scales.getD 0 0 * model (sequence.rows.map s.transformRow))
         * 9 / 5 + 32,
       fh * 3, 85 / 100⟩ :=
  ⟨rfl, predict_eval s model fh sequence hc hm hs h0⟩

/-- C10 witness: the delegation and the re-standardization at a concrete
scaler, model and window. -/
theorem c10_predict_from_sequence_eq_witness :
    predict_from_sequence ⟨[10, 0], [2, 1], 2⟩ (fun _ => 3) 8 ⟨2, [[1, 2]]⟩
      = predict ⟨[10, 0], [2, 1], 2⟩ (fun _ => 3) 8 ⟨2, [[1, 2]]⟩ ∧
    predict_from_sequence ⟨[10, 0], [2, 1], 2⟩ (fun _ => 3) 8 ⟨2, [[1, 2]]⟩
      = Except.ok
      ⟨[(10 : Rat), 0].getD 0 0 + [(2 : Rat), 1].getD 0 0
          * (fun _ => (3 : Rat)) (([[(1 : Rat), 2]]).map
              (Scaler.transformRow ⟨[10, 0], [2, 1], 2⟩)),
       ([(10 : Rat), 0].getD 0 0 + [(2 : Rat), 1].getD 0 0
          * (fun _ => (3 : Rat)) (([[(1 : Rat), 2]]).map
              (Scaler.transformRow ⟨[10, 0], [2, 1], 2⟩))) * 9 / 5 + 32,
       8 * 3, 85 / 100⟩ :=
  c10_predict_from_sequence_eq ⟨[10, 0], [2, 1], 2⟩ (fun _ => 3) 8
    ⟨2, [[1, 2]]⟩ rfl rfl rfl (by decide)

/-! ## Claim C3 -/

/-- C3 counterexample: a scaler fitted on 3 columns applied to a
2-column matrix fails with sklearn's `ValueError`, not with the
`DataError` the claim names — no `DataError` class exists anywhere in
the repository. -/
theorem c3_counterexample :
    Scaler.transform ⟨[0, 0, 0], [1, 1, 1], 3⟩ ⟨2, [[1, 2]]⟩
        = Except.error PyError.valueError ∧
    Scaler.transform ⟨[0, 0, 0], [1, 1, 1], 3⟩ ⟨2, [[1, 2]]⟩
        ≠ Except.error PyError.dataError := by
  constructor
  · rfl
  · intro h
    exact absurd (Except.error.inj h) (by decide)

/-- C3 amended: for every input matrix whose column count differs from
the fitted one, the scaler's `transform` fails with `ValueError` —
never silently proceeding — and the failure propagates out of both
`create_sequences` with `fit_scaler=False` and `Predictor.predict`. -/
theorem c3_mismatch_fails (s : Scaler) (m : NPMatrix)
    (model : List (List Rat) → Rat) (fh L H : Nat) (tss : List Int)
    (hasTs : Bool) (hne : m.ncols ≠ s.nFeaturesIn) :
    Scaler.transform s m = Except.error PyError.valueError ∧
    predict s model fh m = Except.error PyError.valueError ∧
    create_sequences_noFit L H s ⟨hasTs, tss, m⟩
      = Except.error PyError.valueError := by
  refine ⟨?_, ?_, ?_⟩
  · simp [Scaler.transform, if_neg hne]
  · simp [predict, Scaler.transform, if_neg hne]
  · simp [create_sequences_noFit, Scaler.transform, if_neg hne]

/-- C3 witness: a scaler fitted on one column applied to a two-column
matrix makes all three entry points fail with `ValueError`. -/
theorem c3_mismatch_fails_witness :
    ((NPMatrix.mk 2 [[1, 2]]).ncols ≠ (Scaler.mk [0] [1] 1).nFeaturesIn) ∧
    (Scaler.transform ⟨[0], [1], 1⟩ ⟨2, [[1, 2]]⟩
        = Except.error PyError.valueError ∧
      predict ⟨[0], [1], 1⟩ (fun _ => 0) 8 ⟨2, [[1, 2]]⟩
        = Except.error PyError.valueError ∧
      create_sequences_noFit 8 8 ⟨[0], [1], 1⟩ ⟨true, [], ⟨2, [[1, 2]]⟩⟩
        = Except.error PyError.valueError) :=
  ⟨by decide,
   c3_mismatch_fails ⟨[0], [1], 1⟩ ⟨2, [[1, 2]]⟩ (fun _ => 0) 8 8 8 []
     true (by decide)⟩

/-! ## Claim C9 -/

/-- C9 counterexample: on a processed table of 8 rows the serving
endpoint's window is the last 4 rows, not the last
`sequence_length = 8` rows (the repository default the model pipeline
is built with), so the claim fails. -/
theorem c9_counterexample :
    forecastWindow ((List.range 8).map (fun i => [(i : Rat)]))
      ≠ lastN defaultSequenceLength ((List.range 8).map (fun i => [(i : Rat)])) := by
  decide

/-- C9 amended: the serving endpoint builds the inference window by
taking the last **4** rows (a hardcoded constant, coinciding with
`sequence_length` only when that is 4): the window is `lastN 4`, has
`min 4 N` rows, and is a suffix of the processed table. -/
theorem c9_window_is_last4 (rows : List (List Rat)) :
    forecastWindow rows = lastN 4 rows ∧
    (forecastWindow rows).length = min 4 rows.length ∧
    (forecastWindow rows).IsSuffix rows := by
  refine ⟨rfl, ?_, List.drop_suffix _ _⟩
  simp only [forecastWindow, List.length_drop]
  omega

/-! ## Training-loop lemmas -/

lemma runMin_succ_improved (vl : Nat → Rat) (e : Nat)
    (h : improvedAt vl e = true) : runMin vl (e + 1) = some (vl e) := by
  unfold improvedAt improvedB at h
  simp only [runMin]
  cases hr : runMin vl e with
  | none => rfl
  | some b =>
    rw [hr] at h
    simp only [decide_eq_true_eq] at h
    dsimp only
    rw [min_eq_left (le_of_lt h)]

lemma runMin_succ_not (vl : Nat → Rat) (e : Nat)
    (h : improvedAt vl e = false) : runMin vl (e + 1) = runMin vl e := by
  unfold improvedAt improvedB at h
  simp only [runMin]
  cases hr : runMin vl e with
  | none => rw [hr] at h; simp at h
  | some b =>
    rw [hr] at h
    simp only [decide_eq_false_iff_not, not_lt] at h
    dsimp only
    rw [min_eq_right h]

lemma leInf_refl (x : Option Rat) : leInf x x = true := by
  cases x <;> simp [leInf]

lemma leInf_trans {x y z : Option Rat} (h1 : leInf x y = true)
    (h2 : leInf y z = true) : leInf x z = true := by
  cases z with
  | none => cases x <;> simp [leInf]
  | some c =>
    cases y with
    | none => simp [leInf] at h2
    | some b =>
      cases x with
      | none => simp [leInf] at h1
      | some a =>
        simp only [leInf, decide_eq_true_eq] at h1 h2 ⊢
        exact le_trans h1 h2

lemma runMin_step (vl : Nat → Rat) (e : Nat) :
    leInf (runMin vl (e + 1)) (runMin vl e) = true := by
  by_cases h : improvedAt vl e = true
  · rw [runMin_succ_improved vl e h]
    unfold improvedAt improvedB at h
    cases hr : runMin vl e with
    | none => simp [leInf]
    | some b =>
      rw [hr] at h
      simp only [decide_eq_true_eq] at h
      simp [leInf, le_of_lt h]
  · rw [runMin_succ_not vl e (by simpa using h)]
    exact leInf_refl _

lemma runMin_mono (vl : Nat → Rat) {a b : Nat} (h : a ≤ b) :
    leInf (runMin vl b) (runMin vl a) = true := by
  induction b with
  | zero =>
    have ha : a = 0 := by omega
    subst ha
    exact leInf_refl _
  | succ n ih =>
    rcases Nat.lt_or_ge a (n + 1) with h1 | h2
    · exact leInf_trans (runMin_step vl n) (ih (by omega))
    · have ha : a = n + 1 := by omega
      subst ha
      exact leInf_refl _

lemma streakAfter_improved (vl : Nat → Rat) (e : Nat)
    (h : improvedAt vl e = true) : streakAfter vl e = 0 := by
  simp [streakAfter, streakBefore, h]

lemma streakAfter_not (vl : Nat → Rat) (e : Nat)
    (h : improvedAt vl e = false) :
    streakAfter vl e = streakBefore vl e + 1 := by
  simp [streakAfter, streakBefore, h]

lemma runLoop_logs {W O M : Type} (wAt : Nat → W) (oAt : Nat → O)
    (tl vl : Nat → Rat) (md : M) (cfg : ModelConfig) (patience : Nat) :
    ∀ (n e : Nat) (best : Option Rat) (counter : Nat),
      best = runMin vl e → counter = streakBefore vl e →
      ∀ i, i < (runLoop wAt oAt tl vl md cfg patience n best counter e).1.length →
        (runLoop wAt oAt tl vl md cfg patience n best counter e).1.getD i
            ⟨0, 0, 0, none, 0, none⟩
          = specLog wAt oAt tl vl md cfg (e + i) := by
  intro n
  induction n with
  | zero =>
    intro e best counter _ _ i hi
    simp [runLoop] at hi
  | succ n ih =>
    intro e best counter hb hc i hi
    have himp : improvedB best (vl e) = improvedAt vl e := by
      rw [hb]; rfl
    by_cases he : improvedAt vl e = true
    · have hcond : improvedB best (vl e) = true := by rw [himp]; exact he
      rw [runLoop, if_pos hcond] at hi ⊢
      cases i with
      | zero =>
        simp only [List.getD_cons_zero, specLog, Nat.add_zero,
          runMin_succ_improved vl e he, streakAfter_improved vl e he,
          if_pos he]
      | succ i =>
        rw [List.getD_cons_succ]
        have hlen : i < (runLoop wAt oAt tl vl md cfg patience n
            (some (vl e)) 0 (e + 1)).1.length := by
          simpa using hi
        have := ih (e + 1) (some (vl e)) 0
          (runMin_succ_improved vl e he).symm
          (by simp [streakBefore, he]) i hlen
        rw [this]
        congr 1
        omega
    · have he' : improvedAt vl e = false := by simpa using he
      have hcond : improvedB best (vl e) = false := by rw [himp]; exact he'
      have hcond' : ¬ improvedB best (vl e) = true := by simp [hcond]
      rw [runLoop, if_neg hcond'] at hi ⊢
      by_cases hpat : patience ≤ counter + 1
      · rw [if_pos hpat] at hi ⊢
        have hi0 : i = 0 := by simpa using hi
        subst hi0
        simp only [List.getD_cons_zero, specLog, Nat.add_zero,
          runMin_succ_not vl e he', streakAfter_not vl e he', he',
          ← hb, ← hc]
        simp
      · rw [if_neg hpat] at hi ⊢
        cases i with
        | zero =>
          simp only [List.getD_cons_zero, specLog, Nat.add_zero,
            runMin_succ_not vl e he', streakAfter_not vl e he', he',
            ← hb, ← hc]
          simp
        | succ i =>
          rw [List.getD_cons_succ]
          have hlen : i < (runLoop wAt oAt tl vl md cfg patience n
              best (counter + 1) (e + 1)).1.length := by
            simpa using hi
          have := ih (e + 1) best (counter + 1)
            (by rw [hb, runMin_succ_not vl e he'])
            (by rw [hc, streakBefore, he']; simp) i hlen
          rw [this]
          congr 1
          omega

/-! ## Claim C4 -/

/-- C4: across every training run, each epoch's log matches the
specification: `best_val_loss` after epoch `e` is the running minimum
of the validation losses, the checkpoint is written in epoch `e` iff
`vl e` is strictly below the previous best (and then it is the full
checkpoint of epoch `e` — weights, optimizer state, both losses,
metadata, config, epoch — with the best updated to `vl e` and the
patience counter reset to 0, as `specLog` states), and the recorded
best is non-increasing from epoch `i` to any later epoch `j`. -/
theorem c4_best_and_checkpoint {W O M : Type} (wAt : Nat → W) (oAt : Nat → O)
    (tl vl : Nat → Rat) (md : M) (cfg : ModelConfig) (patience epochs : Nat)
    (i j : Nat) (hij : i ≤ j)
    (hj : j < (trainLoop wAt oAt tl vl md cfg patience epochs).1.length) :
    (trainLoop wAt oAt tl vl md cfg patience epochs).1.getD i
        ⟨0, 0, 0, none, 0, none⟩ = specLog wAt oAt tl vl md cfg i ∧
    (trainLoop wAt oAt tl vl md cfg patience epochs).1.getD j
        ⟨0, 0, 0, none, 0, none⟩ = specLog wAt oAt tl vl md cfg j ∧
    leInf ((trainLoop wAt oAt tl vl md cfg patience epochs).1.getD j
        ⟨0, 0, 0, none, 0, none⟩).bestAfter
      ((trainLoop wAt oAt tl vl md cfg patience epochs).1.getD i
        ⟨0, 0, 0, none, 0, none⟩).bestAfter = true ∧
    (((trainLoop wAt oAt tl vl md cfg patience epochs).1.getD j
        ⟨0, 0, 0, none, 0, none⟩).saved.isSome = true ↔ improvedAt vl j = true) := by
  simp only [trainLoop] at hj ⊢
  have hchar := runLoop_logs wAt oAt tl vl md cfg patience epochs 0 none 0
    rfl rfl
  have hci := hchar i (by omega)
  have hcj := hchar j (by omega)
  rw [Nat.zero_add] at hci hcj
  refine ⟨hci, hcj, ?_, ?_⟩
  · rw [hci, hcj]
    simp only [specLog]
    exact runMin_mono vl (by omega)
  · rw [hcj]
    simp only [specLog]
    by_cases hj' : improvedAt vl j = true
    · simp [hj']
    · have : improvedAt vl j = false := by simpa using hj'
      simp [this]

/-- C4 witness: validation losses 5, 3, 4 over three epochs with
patience 5 — the best is non-increasing from epoch 0 to epoch 2 and
epoch 2 (4 &gt; 3) writes no checkpoint. -/
theorem c4_best_and_checkpoint_witness :
    ((0 : Nat) ≤ 2 ∧
      2 < (trainLoop (fun e => e) (fun e => e) (fun _ => (0 : Rat))
        (fun e => [(5 : Rat), 3, 4].getD e 0) 0 ⟨1, 1, 1, 0⟩ 5 3).1.length) ∧
    ((trainLoop (fun e => e) (fun e => e) (fun _ => (0 : Rat))
        (fun e => [(5 : Rat), 3, 4].getD e 0) 0 ⟨1, 1, 1, 0⟩ 5 3).1.getD 0
        ⟨0, 0, 0, none, 0, none⟩
      = specLog (fun e => e) (fun e => e) (fun _ => (0 : Rat))
        (fun e => [(5 : Rat), 3, 4].getD e 0) 0 ⟨1, 1, 1, 0⟩ 0 ∧
    (trainLoop (fun e => e) (fun e => e) (fun _ => (0 : Rat))
        (fun e => [(5 : Rat), 3, 4].getD e 0) 0 ⟨1, 1, 1, 0⟩ 5 3).1.getD 2
        ⟨0, 0, 0, none, 0, none⟩
      = specLog (fun e => e) (fun e => e) (fun _ => (0 : Rat))
        (fun e => [(5 : Rat), 3, 4].getD e 0) 0 ⟨1, 1, 1, 0⟩ 2 ∧
    leInf ((trainLoop (fun e => e) (fun e => e) (fun _ => (0 : Rat))
        (fun e => [(5 : Rat), 3, 4].getD e 0) 0 ⟨1, 1, 1, 0⟩ 5 3).1.getD 2
        ⟨0, 0, 0, none, 0, none⟩).bestAfter
      ((trainLoop (fun e => e) (fun e => e) (fun _ => (0 : Rat))
        (fun e => [(5 : Rat), 3, 4].getD e 0) 0 ⟨1, 1, 1, 0⟩ 5 3).1.getD 0
        ⟨0, 0, 0, none, 0, none⟩).bestAfter = true ∧
    (((trainLoop (fun e => e) (fun e => e) (fun _ => (0 : Rat))
        (fun e => [(5 : Rat), 3, 4].getD e 0) 0 ⟨1, 1, 1, 0⟩ 5 3).1.getD 2
        ⟨0, 0, 0, none, 0, none⟩).saved.isSome = true
      ↔ improvedAt (fun e => [(5 : Rat), 3, 4].getD e 0) 2 = true)) :=
  ⟨⟨by decide, by decide⟩,
   c4_best_and_checkpoint (fun e => e) (fun e => e) (fun _ => (0 : Rat))
     (fun e => [(5 : Rat), 3, 4].getD e 0) 0 ⟨1, 1, 1, 0⟩ 5 3 0 2
     (by decide) (by decide)⟩

lemma runLoop_stop {W O M : Type} (wAt : Nat → W) (oAt : Nat → O)
    (tl vl : Nat → Rat) (md : M) (cfg : ModelConfig) (patience : Nat)
    (hp : 1 ≤ patience) :
    ∀ (n e : Nat) (best : Option Rat) (counter : Nat),
      best = runMin vl e → counter = streakBefore vl e → counter < patience →
      (∀ e', (runLoop wAt oAt tl vl md cfg patience n best counter e).2 = some e' ↔
        (e ≤ e' ∧ e' < e + n ∧ streakAfter vl e' = patience ∧
          ∀ k, e ≤ k → k < e' → streakAfter vl k < patience)) ∧
      ((runLoop wAt oAt tl vl md cfg patience n best counter e).2 = none ↔
        (∀ k, e ≤ k → k < e + n → streakAfter vl k < patience)) ∧
      ((runLoop wAt oAt tl vl md cfg patience n best counter e).2 = none →
        (runLoop wAt oAt tl vl md cfg patience n best counter e).1.length = n) := by
  intro n
  induction n with
  | zero =>
    intro e best counter _ _ _
    refine ⟨?_, ?_, ?_⟩
    · intro e'
      simp only [runLoop]
      constructor
      · intro h; exact absurd h (by simp)
      · rintro ⟨h1, h2, _⟩; omega
    · simp only [runLoop]
      constructor
      · intro _ k hk1 hk2; omega
      · intro _; trivial
    · intro _; simp [runLoop]
  | succ n ih =>
    intro e best counter hb hc hcp
    have himp : improvedB best (vl e) = improvedAt vl e := by rw [hb]; rfl
    by_cases he : improvedAt vl e = true
    · have hcond : improvedB best (vl e) = true := by rw [himp]; exact he
      have hs0 : streakAfter vl e = 0 := streakAfter_improved vl e he
      obtain ⟨ihA, ihB, ihC⟩ := ih (e + 1) (some (vl e)) 0
        (runMin_succ_improved vl e he).symm (by simp [streakBefore, he])
        (by omega)
      simp only [runLoop, if_pos hcond]
      refine ⟨?_, ?_, ?_⟩
      · intro e'
        rw [ihA e']
        constructor
        · rintro ⟨h1, h2, h3, h4⟩
          refine ⟨by omega, by omega, h3, ?_⟩
          intro k hk1 hk2
          rcases eq_or_lt_of_le hk1 with hke | hke
          · rw [← hke, hs0]; omega
          · exact h4 k (by omega) hk2
        · rintro ⟨h1, h2, h3, h4⟩
          have hne : e' ≠ e := by
            intro hEq; rw [hEq, hs0] at h3; omega
          exact ⟨by omega, by omega, h3, fun k hk1 hk2 => h4 k (by omega) hk2⟩
      · dsimp only
        rw [ihB]
        constructor
        · intro h k hk1 hk2
          rcases eq_or_lt_of_le hk1 with hke | hke
          · rw [← hke, hs0]; omega
          · exact h k (by omega) (by omega)
        · intro h k hk1 hk2
          exact h k (by omega) (by omega)
      · intro h
        rw [List.length_cons, ihC h]
    · have he' : improvedAt vl e = false := by simpa using he
      have hcond' : ¬ improvedB best (vl e) = true := by rw [himp]; simp [he']
      have hsA : streakAfter vl e = counter + 1 := by
        rw [streakAfter_not vl e he', ← hc]
      simp only [runLoop, if_neg hcond']
      by_cases hpat : patience ≤ counter + 1
      · have hpe : streakAfter vl e = patience := by omega
        simp only [if_pos hpat]
        refine ⟨?_, ?_, ?_⟩
        · intro e'
          constructor
          · intro h
            have heq : e = e' := Option.some.inj h
            subst heq
            exact ⟨le_refl e, by omega, hpe, fun k hk1 hk2 => by omega⟩
          · rintro ⟨h1, h2, h3, h4⟩
            rcases eq_or_lt_of_le h1 with hke | hke
            · exact congrArg some hke
            · exfalso
              have := h4 e (le_refl e) hke
              omega
        · dsimp only
          constructor
          · intro h; exact absurd h (by simp)
          · intro h
            exfalso
            have := h e (le_refl e) (by omega)
            omega
        · intro h; exact absurd h (by simp)
      · simp only [if_neg hpat]
        obtain ⟨ihA, ihB, ihC⟩ := ih (e + 1) best (counter + 1)
          (by rw [hb, runMin_succ_not vl e he'])
          (by simp [streakBefore, he']; omega) (by omega)
        refine ⟨?_, ?_, ?_⟩
        · intro e'
          rw [ihA e']
          constructor
          · rintro ⟨h1, h2, h3, h4⟩
            refine ⟨by omega, by omega, h3, ?_⟩
            intro k hk1 hk2
            rcases eq_or_lt_of_le hk1 with hke | hke
            · rw [← hke, hsA]; omega
            · exact h4 k (by omega) hk2
          · rintro ⟨h1, h2, h3, h4⟩
            have hne : e' ≠ e := by
              intro hEq; rw [hEq, hsA] at h3; omega
            exact ⟨by omega, by omega, h3, fun k hk1 hk2 => h4 k (by omega) hk2⟩
        · dsimp only
          rw [ihB]
          constructor
          · intro h k hk1 hk2
            rcases eq_or_lt_of_le hk1 with hke | hke
            · rw [← hke, hsA]; omega
            · exact h k (by omega) (by omega)
          · intro h k hk1 hk2
            exact h k (by omega) (by omega)
        · intro h
          rw [List.length_cons, ihC h]

/-! ## Claim C5 -/

/-- C5: with patience at least 1, the training loop terminates early at
epoch `e` exactly when `e` is the first epoch at which the count of
consecutive non-improving epochs since the most recent strict
improvement reaches the configured patience (and `e` is below the
epoch cap); when that never happens within the cap, the loop runs all
`epochs` epochs — reaching the cap is the only other termination. -/
theorem c5_early_stop {W O M : Type} (wAt : Nat → W) (oAt : Nat → O)
    (tl vl : Nat → Rat) (md : M) (cfg : ModelConfig) (patience epochs : Nat)
    (hp : 1 ≤ patience) :
    (∀ e, (trainLoop wAt oAt tl vl md cfg patience epochs).2 = some e ↔
      (e < epochs ∧ streakAfter vl e = patience ∧
        ∀ k, k < e → streakAfter vl k < patience)) ∧
    ((trainLoop wAt oAt tl vl md cfg patience epochs).2 = none ↔
      ∀ k, k < epochs → streakAfter vl k < patience) ∧
    ((trainLoop wAt oAt tl vl md cfg patience epochs).2 = none →
      (trainLoop wAt oAt tl vl md cfg patience epochs).1.length = epochs) := by
  obtain ⟨hA, hB, hC⟩ := runLoop_stop wAt oAt tl vl md cfg patience hp epochs
    0 none 0 rfl rfl (by omega)
  simp only [trainLoop]
  refine ⟨?_, ?_, hC⟩
  · intro e
    rw [hA e]
    constructor
    · rintro ⟨_, h2, h3, h4⟩
      exact ⟨by omega, h3, fun k hk => h4 k (by omega) hk⟩
    · rintro ⟨h1, h3, h4⟩
      exact ⟨by omega, by omega, h3, fun k _ hk => h4 k hk⟩
  · rw [hB]
    constructor
    · intro h k hk
      exact h k (by omega) (by omega)
    · intro h k _ hk
      exact h k (by omega)

/-- C5 witness: validation losses 1, 2, 3, 4, 5 with patience 2 and cap
5 — the loop's early-stop epoch is characterized by the first streak
reaching 2. -/
theorem c5_early_stop_witness :
    (1 ≤ 2) ∧
    ((∀ e, (trainLoop (fun e => e) (fun e => e) (fun _ => (0 : Rat))
        (fun e => [(1 : Rat), 2, 3, 4, 5].getD e 0) 0 ⟨1, 1, 1, 0⟩ 2 5).2 = some e ↔
      (e < 5 ∧ streakAfter (fun e => [(1 : Rat), 2, 3, 4, 5].getD e 0) e = 2 ∧
        ∀ k, k < e →
          streakAfter (fun e => [(1 : Rat), 2, 3, 4, 5].getD e 0) k < 2)) ∧
    ((trainLoop (fun e => e) (fun e => e) (fun _ => (0 : Rat))
        (fun e => [(1 : Rat), 2, 3, 4, 5].getD e 0) 0 ⟨1, 1, 1, 0⟩ 2 5).2 = none ↔
      ∀ k, k < 5 →
        streakAfter (fun e => [(1 : Rat), 2, 3, 4, 5].getD e 0) k < 2) ∧
    ((trainLoop (fun e => e) (fun e => e) (fun _ => (0 : Rat))
        (fun e => [(1 : Rat), 2, 3, 4, 5].getD e 0) 0 ⟨1, 1, 1, 0⟩ 2 5).2 = none →
      (trainLoop (fun e => e) (fun e => e) (fun _ => (0 : Rat))
        (fun e => [(1 : Rat), 2, 3, 4, 5].getD e 0) 0 ⟨1, 1, 1, 0⟩ 2 5).1.length = 5)) :=
  ⟨by decide,
   c5_early_stop (fun e => e) (fun e => e) (fun _ => (0 : Rat))
     (fun e => [(1 : Rat), 2, 3, 4, 5].getD e 0) 0 ⟨1, 1, 1, 0⟩ 2 5 (by decide)⟩

/-! ## Sorting and deduplication lemmas for `prepare_data` -/

lemma oElse_none_right (a : Option Rat) : oElse a none = a := by
  cases a <;> rfl

lemma oElse_assoc (a b c : Option Rat) :
    oElse (oElse a b) c = oElse a (oElse b c) := by
  cases a <;> rfl

lemma mem_insertByTs (r x : RawRow) (l : List RawRow) :
    x ∈ insertByTs r l ↔ x = r ∨ x ∈ l := by
  induction l with
  | nil => simp [insertByTs]
  | cons y rest ih =>
    simp only [insertByTs]
    by_cases hle : r.ts ≤ y.ts
    · rw [if_pos hle]
      simp [List.mem_cons]
    · rw [if_neg hle]
      simp only [List.mem_cons, ih]
      tauto

lemma pairwise_insertByTs (r : RawRow) (l : List RawRow)
    (h : List.Pairwise (fun a b => a.ts ≤ b.ts) l) :
    List.Pairwise (fun a b => a.ts ≤ b.ts) (insertByTs r l) := by
  induction l with
  | nil => simp [insertByTs]
  | cons y rest ih =>
    rw [List.pairwise_cons] at h
    obtain ⟨hy, hrest⟩ := h
    simp only [insertByTs]
    by_cases hle : r.ts ≤ y.ts
    · rw [if_pos hle]
      rw [List.pairwise_cons]
      refine ⟨?_, List.pairwise_cons.mpr ⟨hy, hrest⟩⟩
      intro b hb
      rcases List.mem_cons.mp hb with hb | hb
      · rw [hb]; exact hle
      · exact le_trans hle (hy b hb)
    · rw [if_neg hle]
      rw [List.pairwise_cons]
      refine ⟨?_, ih hrest⟩
      intro b hb
      rcases (mem_insertByTs r b rest).mp hb with hb | hb
      · rw [hb]; exact le_of_lt (not_le.mp hle)
      · exact hy b hb

lemma sorted_sortByTs (l : List RawRow) :
    List.Pairwise (fun a b => a.ts ≤ b.ts) (sortByTs l) := by
  induction l with
  | nil => simp [sortByTs]
  | cons x rest ih => exact pairwise_insertByTs x _ ih

lemma mem_sortByTs (x : RawRow) (l : List RawRow) : x ∈ sortByTs l ↔ x ∈ l := by
  induction l with
  | nil => simp [sortByTs]
  | cons y rest ih =>
    simp only [sortByTs, mem_insertByTs, List.mem_cons, ih]

lemma mem_ts_dedupFirstAux (τ : Int) : ∀ (l : List RawRow) (seen : List Int),
    (τ ∈ (dedupFirstAux seen l).map RawRow.ts ↔
      (τ ∉ seen ∧ τ ∈ l.map RawRow.ts)) := by
  intro l
  induction l with
  | nil => intro seen; simp [dedupFirstAux]
  | cons r rest ih =>
    intro seen
    simp only [dedupFirstAux]
    by_cases hr : r.ts ∈ seen
    · rw [if_pos hr, ih seen]
      simp only [List.map_cons, List.mem_cons]
      constructor
      · rintro ⟨h1, h2⟩
        exact ⟨h1, Or.inr h2⟩
      · rintro ⟨h1, he | hm⟩
        · exact absurd (he ▸ hr) h1
        · exact ⟨h1, hm⟩
    · rw [if_neg hr]
      simp only [List.map_cons, List.mem_cons]
      rw [ih (r.ts :: seen)]
      constructor
      · rintro (he | ⟨h1, h2⟩)
        · exact ⟨he ▸ hr, Or.inl he⟩
        · exact ⟨fun hs => h1 (by simp [hs]), Or.inr h2⟩
      · rintro ⟨h1, hmem⟩
        by_cases hτ : τ = r.ts
        · exact Or.inl hτ
        · rcases hmem with he | hm
          · exact absurd he hτ
          · refine Or.inr ⟨?_, hm⟩
            simp only [List.mem_cons, not_or]
            exact ⟨hτ, h1⟩

lemma sublist_dedupFirstAux : ∀ (l : List RawRow) (seen : List Int),
    List.Sublist (dedupFirstAux seen l) l := by
  intro l
  induction l with
  | nil => intro seen; simp [dedupFirstAux]
  | cons r rest ih =>
    intro seen
    simp only [dedupFirstAux]
    by_cases hr : r.ts ∈ seen
    · rw [if_pos hr]
      exact (ih seen).cons r
    · rw [if_neg hr]
      exact (ih (r.ts :: seen)).cons₂ r

lemma nodup_ts_dedupFirstAux : ∀ (l : List RawRow) (seen : List Int),
    ((dedupFirstAux seen l).map RawRow.ts).Nodup := by
  intro l
  induction l with
  | nil => intro seen; simp [dedupFirstAux]
  | cons r rest ih =>
    intro seen
    simp only [dedupFirstAux]
    by_cases hr : r.ts ∈ seen
    · rw [if_pos hr]
      exact ih seen
    · rw [if_neg hr]
      simp only [List.map_cons, List.nodup_cons]
      refine ⟨?_, ih _⟩
      intro hmem
      rw [mem_ts_dedupFirstAux] at hmem
      exact hmem.1 (by simp)

lemma filter_dedupFirstAux (τ : Int) : ∀ (l : List RawRow) (seen : List Int),
    (dedupFirstAux seen l).filter (fun r => decide (r.ts = τ))
      = if τ ∈ seen then []
        else (l.filter (fun r => decide (r.ts = τ))).take 1 := by
  intro l
  induction l with
  | nil =>
    intro seen
    by_cases hτ : τ ∈ seen <;> simp [dedupFirstAux, hτ]
  | cons r rest ih =>
    intro seen
    simp only [dedupFirstAux]
    by_cases hr : r.ts ∈ seen
    · rw [if_pos hr, ih seen, List.filter_cons]
      by_cases hτ : τ ∈ seen
      · rw [if_pos hτ, if_pos hτ]
      · rw [if_neg hτ, if_neg hτ]
        have hne : ¬ r.ts = τ := fun h => hτ (h ▸ hr)
        rw [if_neg (by simpa using hne)]
    · rw [if_neg hr]
      by_cases hτ' : r.ts = τ
      · have hps : τ ∈ r.ts :: seen := by simp [hτ']
        have hτs : τ ∉ seen := hτ' ▸ hr
        rw [List.filter_cons,
          if_pos (show decide (r.ts = τ) = true by simp [hτ']),
          ih (r.ts :: seen), if_pos hps, if_neg hτs, List.filter_cons,
          if_pos (show decide (r.ts = τ) = true by simp [hτ'])]
        simp
      · rw [List.filter_cons,
          if_neg (show ¬ decide (r.ts = τ) = true by simp [hτ']),
          ih (r.ts :: seen), List.filter_cons,
          if_neg (show ¬ decide (r.ts = τ) = true by simp [hτ'])]
        have hiff : (τ ∈ r.ts :: seen) ↔ (τ ∈ seen) := by
          simp only [List.mem_cons]
          constructor
          · rintro (h | h)
            · exact absurd h.symm hτ'
            · exact h
          · exact Or.inr
        by_cases hτs : τ ∈ seen
        · rw [if_pos (hiff.mpr hτs), if_pos hτs]
        · rw [if_neg (fun hh => hτs (hiff.mp hh)), if_neg hτs]

lemma pairwise_lt_dedupFirst (l : List RawRow)
    (h : List.Pairwise (fun a b => a.ts ≤ b.ts) l) :
    List.Pairwise (fun a b => a.ts < b.ts) (dedupFirst l) := by
  have hle : List.Pairwise (fun a b => a.ts ≤ b.ts) (dedupFirst l) :=
    List.Pairwise.sublist (sublist_dedupFirstAux l []) h
  have hnd : ((dedupFirst l).map RawRow.ts).Nodup := nodup_ts_dedupFirstAux l []
  have hne : List.Pairwise (fun a b : RawRow => a.ts ≠ b.ts) (dedupFirst l) :=
    List.pairwise_map.mp hnd
  exact (hle.and hne).imp (fun hab => lt_of_le_of_ne hab.1 hab.2)

/-! ## Fill lemmas for `prepare_data` -/

lemma ffillAux_length : ∀ (c : List (Option Rat)) (carry : Option Rat),
    (ffillAux carry c).length = c.length := by
  intro c
  induction c with
  | nil => intro carry; rfl
  | cons x rest ih =>
    intro carry
    cases x <;> simp [ffillAux, ih]

lemma lastKnown_append (a b : List (Option Rat)) :
    lastKnown (a ++ b) = oElse (lastKnown b) (lastKnown a) := by
  induction a with
  | nil => simp [lastKnown, oElse_none_right]
  | cons x a ih =>
    show oElse (lastKnown (a ++ b)) x = oElse (lastKnown b) (oElse (lastKnown a) x)
    rw [ih, oElse_assoc]

lemma lastKnown_reverse (l : List (Option Rat)) :
    lastKnown l.reverse = firstKnown l := by
  induction l with
  | nil => rfl
  | cons x rest ih =>
    rw [List.reverse_cons, lastKnown_append, ih]
    rfl

lemma getD_reverse {α : Type} (l : List α) (i : Nat) (h : i < l.length)
    (d : α) : l.reverse.getD i d = l.getD (l.length - 1 - i) d := by
  rw [List.getD_eq_getElem?_getD, List.getD_eq_getElem?_getD,
    List.getElem?_reverse h]

lemma ffill_getD : ∀ (c : List (Option Rat)) (carry : Option Rat) (i : Nat),
    i < c.length →
    (ffillAux carry c).getD i none = oElse (lastKnown (c.take (i + 1))) carry := by
  intro c
  induction c with
  | nil => intro carry i hi; simp at hi
  | cons x rest ih =>
    intro carry i hi
    cases i with
    | zero =>
      cases x <;> simp [ffillAux, lastKnown, oElse, oElse_none_right]
    | succ i =>
      have hi' : i < rest.length := by simpa using hi
      cases x with
      | some v =>
        show (some v :: ffillAux (some v) rest).getD (i + 1) none = _
        rw [List.getD_cons_succ, ih (some v) i hi']
        simp only [List.take_succ_cons, lastKnown, oElse_assoc]
        rfl
      | none =>
        show (carry :: ffillAux carry rest).getD (i + 1) none = _
        rw [List.getD_cons_succ, ih carry i hi']
        simp only [List.take_succ_cons, lastKnown, oElse_assoc]
        rfl

lemma bfill_getD (c : List (Option Rat)) (i : Nat) (hi : i < c.length) :
    (bfillCol c).getD i none = firstKnown (c.drop i) := by
  have hlen : (ffillAux none c.reverse).length = c.length := by
    rw [ffillAux_length]; simp
  have hi2 : c.length - 1 - i < c.reverse.length := by simp; omega
  rw [bfillCol, getD_reverse _ i (by rw [hlen]; exact hi), hlen,
    ffill_getD c.reverse none (c.length - 1 - i) hi2, oElse_none_right]
  have harith : c.length - 1 - i + 1 = c.length - i := by omega
  rw [harith, ← List.reverse_drop]
  exact lastKnown_reverse (c.drop i)

lemma firstKnown_ffill_cons : ∀ (rest : List (Option Rat)) (carry x : Option Rat),
    firstKnown (ffillAux carry (x :: rest))
      = oElse x (oElse carry (firstKnown rest)) := by
  intro rest
  induction rest with
  | nil =>
    intro carry x
    cases x <;> cases carry <;> rfl
  | cons y rest ih =>
    intro carry x
    cases x with
    | some v => rfl
    | none =>
      show firstKnown (carry :: ffillAux carry (y :: rest)) = _
      simp only [firstKnown, ih carry y]
      cases carry <;> cases y <;> simp [oElse, firstKnown]

lemma firstKnown_ffill_drop : ∀ (c : List (Option Rat)) (carry : Option Rat)
    (i : Nat), i < c.length →
    firstKnown ((ffillAux carry c).drop i)
      = oElse (oElse (lastKnown (c.take (i + 1))) carry)
          (firstKnown (c.drop (i + 1))) := by
  intro c
  induction c with
  | nil => intro carry i hi; simp at hi
  | cons x rest ih =>
    intro carry i hi
    cases i with
    | zero =>
      rw [List.drop_zero, firstKnown_ffill_cons]
      simp only [List.take_succ_cons, List.take_zero, List.drop_succ_cons,
        List.drop_zero, lastKnown]
      cases x <;> cases carry <;> simp [oElse]
    | succ i =>
      have hi' : i < rest.length := by simpa using hi
      cases x with
      | some v =>
        show firstKnown ((some v :: ffillAux (some v) rest).drop (i + 1)) = _
        rw [List.drop_succ_cons, ih (some v) i hi']
        simp only [List.take_succ_cons, List.drop_succ_cons, lastKnown]
        cases lastKnown (rest.take (i + 1)) <;> cases carry <;> simp [oElse]
      | none =>
        show firstKnown ((carry :: ffillAux carry rest).drop (i + 1)) = _
        rw [List.drop_succ_cons, ih carry i hi']
        simp only [List.take_succ_cons, List.drop_succ_cons, lastKnown]
        cases lastKnown (rest.take (i + 1)) <;> cases carry <;> simp [oElse]

lemma lastKnown_take_succ (c : List (Option Rat)) (i : Nat)
    (hi : i < c.length) :
    lastKnown (c.take (i + 1)) = oElse (c.getD i none) (lastKnown (c.take i)) := by
  rw [List.take_succ, lastKnown_append, List.getElem?_eq_getElem hi]
  rw [List.getD_eq_getElem?_getD, List.getElem?_eq_getElem hi]
  simp only [Option.toList_some, Option.getD_some, lastKnown]
  rfl

lemma fill_getD (c : List (Option Rat)) (i : Nat) (hi : i < c.length) :
    (bfillCol (ffillCol c)).getD i none = fillSpec c i := by
  have hlen : (ffillCol c).length = c.length := ffillAux_length c none
  rw [bfill_getD _ i (by rw [hlen]; exact hi)]
  rw [show ffillCol c = ffillAux none c from rfl,
    firstKnown_ffill_drop c none i hi, oElse_none_right,
    lastKnown_take_succ c i hi, fillSpec, oElse_assoc]

lemma fillRows_getD (ncols : Nat) (rows : List (List (Option Rat)))
    (i j : Nat) (hi : i < rows.length) (hj : j < ncols) :
    ((fillRows ncols rows).getD i []).getD j none
      = (bfillCol (ffillCol (getOptCol rows j))).getD i none := by
  unfold fillRows
  rw [getD_map_range _ _ _ hi]
  have hlen : ((List.range ncols).map
      (fun j => bfillCol (ffillCol (getOptCol rows j)))).length = ncols := by
    simp
  rw [getD_map_lt _ _ _ (by rw [hlen]; exact hj) [] none,
    getD_map_range _ _ _ hj]

/-! ## Claim C8 -/

/-- C8 counterexample: on a table without a timestamp column,
`prepare_data` itself fails at once — the unconditional
`df.drop_duplicates(subset=['timestamp'])` raises a pandas `KeyError` —
rather than succeeding and letting windowing later fail with the
`DataError` the claim names. -/
theorem c8_counterexample :
    prepare_data (fun _ => []) 1 0 ⟨false, [⟨0, [some 1]⟩]⟩
        = Except.error PyError.keyError ∧
    PyError.keyError ≠ PyError.dataError :=
  ⟨rfl, by decide⟩

/-- C8 amended: for every table that does have a timestamp column,
`prepare_data` succeeds and (i) the resulting timestamps are strictly
increasing (sorted ascending with duplicates dropped), (ii) exactly the
input timestamps survive, (iii) deduplication keeps the first
occurrence of each timestamp in the sorted order, and (iv) every
numeric cell is filled forward then backward: the value at row `i` of
column `j` is the original entry if present, else the nearest earlier
present value, else the nearest later present value (`fillSpec`). -/
theorem c8_prepare_data (enc : Int → List Rat) (origN encN : Nat)
    (t : RawFrame) (ht : t.hasTimestamp = true) :
    ∃ out, prepare_data enc origN encN t = Except.ok out ∧
      List.Pairwise (fun a b => a < b) out.tss ∧
      (∀ τ : Int, τ ∈ out.tss ↔ τ ∈ t.rows.map RawRow.ts) ∧
      (∀ τ : Int, (dedupFirst (sortByTs t.rows)).filter
            (fun r => decide (r.ts = τ))
          = ((sortByTs t.rows).filter (fun r => decide (r.ts = τ))).take 1) ∧
      (∀ i j, i < (dedupFirst (sortByTs t.rows)).length → j < origN + encN →
        (out.vals.getD i []).getD j none
          = fillSpec (getOptCol ((dedupFirst (sortByTs t.rows)).map
              (fun r => r.vals ++ (enc r.ts).map some)) j) i) := by
  refine ⟨⟨(dedupFirst (sortByTs t.rows)).map (fun r => r.ts),
    fillRows (origN + encN) ((dedupFirst (sortByTs t.rows)).map
      (fun r => r.vals ++ (enc r.ts).map some))⟩, ?_, ?_, ?_, ?_, ?_⟩
  · simp only [prepare_data, ht, if_true]
  · show List.Pairwise (fun a b => a < b)
      ((dedupFirst (sortByTs t.rows)).map (fun r => r.ts))
    exact List.pairwise_map.mpr
      (pairwise_lt_dedupFirst (sortByTs t.rows) (sorted_sortByTs t.rows))
  · intro τ
    show τ ∈ (dedupFirstAux [] (sortByTs t.rows)).map (fun r => r.ts) ↔ _
    have hmm : ((dedupFirstAux [] (sortByTs t.rows)).map (fun r : RawRow => r.ts))
        = (dedupFirstAux [] (sortByTs t.rows)).map RawRow.ts := rfl
    rw [hmm, mem_ts_dedupFirstAux]
    simp only [List.not_mem_nil, not_false_iff, true_and]
    simp only [List.mem_map]
    constructor
    · rintro ⟨r, hr, hτ⟩
      exact ⟨r, (mem_sortByTs r _).mp hr, hτ⟩
    · rintro ⟨r, hr, hτ⟩
      exact ⟨r, (mem_sortByTs r _).mpr hr, hτ⟩
  · intro τ
    have h := filter_dedupFirstAux τ (sortByTs t.rows) []
    rw [dedupFirst, h, if_neg (List.not_mem_nil τ)]
  · intro i j hi hj
    have hlen : ((dedupFirst (sortByTs t.rows)).map
        (fun r => r.vals ++ (enc r.ts).map some)).length
        = (dedupFirst (sortByTs t.rows)).length := by simp
    show ((fillRows (origN + encN) _).getD i []).getD j none = _
    rw [fillRows_getD _ _ i j (by rw [hlen]; exact hi) hj]
    exact fill_getD _ i (by simp only [getOptCol, List.length_map, hlen]; exact hi)

/-- C8 witness: a two-row table with out-of-order timestamps and a
missing value. -/
theorem c8_prepare_data_witness :
    ((RawFrame.mk true [⟨2, [none]⟩, ⟨1, [some 1]⟩]).hasTimestamp = true) ∧
    (∃ out, prepare_data (fun _ => []) 1 0 ⟨true, [⟨2, [none]⟩, ⟨1, [some 1]⟩]⟩
        = Except.ok out ∧
      List.Pairwise (fun a b => a < b) out.tss ∧
      (∀ τ : Int, τ ∈ out.tss ↔
        τ ∈ ([⟨2, [none]⟩, ⟨1, [some 1]⟩] : List RawRow).map RawRow.ts) ∧
      (∀ τ : Int, (dedupFirst (sortByTs [⟨2, [none]⟩, ⟨1, [some 1]⟩])).filter
            (fun r => decide (r.ts = τ))
          = ((sortByTs [⟨2, [none]⟩, ⟨1, [some 1]⟩]).filter
              (fun r => decide (r.ts = τ))).take 1) ∧
      (∀ i j, i < (dedupFirst (sortByTs [⟨2, [none]⟩, ⟨1, [some 1]⟩])).length →
        j < 1 + 0 →
        (out.vals.getD i []).getD j none
          = fillSpec (getOptCol ((dedupFirst
              (sortByTs [⟨2, [none]⟩, ⟨1, [some 1]⟩])).map
              (fun r => r.vals ++ ((fun _ => ([] : List Rat)) r.ts).map some)) j)
              i)) :=
  ⟨rfl, c8_prepare_data (fun _ => []) 1 0 ⟨true, [⟨2, [none]⟩, ⟨1, [some 1]⟩]⟩ rfl⟩

end HyperCast
